import Mathlib

/-!
Verification of the compact bilinear pooling core of this repository
(src/compact_bilinear_pooling.py) against its design specification.

Shallow embedding conventions:
- A TensorFlow tensor is modeled as a `Tf` value: a shape (list of
  dimension sizes) together with a row-major flat data function
  `Nat -> value`.  `tf.reshape` keeps the flat data and only changes the
  shape, exactly as in TensorFlow.
- float32 / complex64 arithmetic is modeled exactly over the rationals
  (floating point rounding is not modeled; every concrete value used in
  the development is exactly representable in float32).
- Complex scalars are pairs `(re, im)` of rationals with the usual
  complex multiplication.  `tf.signal.fft` computes the discrete Fourier
  transform over the innermost axis with kernel `exp(-2*pi*i/d)`; that
  kernel is transcendental, so it is passed as a parameter `omega` of the
  embedding.  All theorems hold for every choice of `omega`, in
  particular for the true kernel.
- `np.random` is modeled abstractly by a deterministic generator
  interface `NpRng`: `seed n` resets the global state to a value that
  depends only on `n`, and `randint bound size st` draws `size` integers
  from state `st` returning the new state.  The global state is threaded
  explicitly through `compact_bilinear_pooling_layer`, and the call to
  `print` on line 108 of the source is modeled as an output trace.
- Python exceptions (failed `assert`, invalid reshape, shape mismatch in
  `tf.multiply`, operating on the `None` returned by `_fft` when
  `sequential=True`) are modeled with `Except TfErr`.
-/

/-- Complex scalars: pairs of rationals, componentwise addition via the
product monoid, multiplication below. -/
abbrev Cx : Type := ℚ × ℚ

/-- Complex multiplication on pairs. -/
def cmul (u v : Cx) : Cx := (u.1 * v.1 - u.2 * v.2, u.1 * v.2 + u.2 * v.1)

/-- Natural powers of a complex scalar. -/
def cpow (u : Cx) : ℕ → Cx
  | 0 => (1, 0)
  | n + 1 => cmul u (cpow u n)

/-- Complex conjugation; the inverse DFT kernel is the conjugate of the
forward kernel. -/
def conjC (u : Cx) : Cx := (u.1, -u.2)

/-- Errors raised by the modeled Python / TensorFlow code. -/
inductive TfErr : Type where
  | assertionError
  | invalidReshape
  | dimMismatch
  | shapeMismatch
  | noneOperand
  deriving DecidableEq

/-- One entry of a tf.sparse.SparseTensor: (row index, column index, value). -/
abbrev SpEntry : Type := ℤ × ℤ × ℚ

/-- Row-major (lexicographic) order on sparse entries, the canonical order
produced by tf.sparse.reorder. -/
def entryLeB (e f : SpEntry) : Bool :=
  decide (e.1 < f.1) || (decide (e.1 = f.1) && decide (e.2.1 ≤ f.2.1))

/-- Insertion step of the canonical reordering. -/
def insertEntry (e : SpEntry) : List SpEntry → List SpEntry
  | [] => [e]
  | f :: t => if entryLeB e f then e :: f :: t else f :: insertEntry e t

/-- Model of tf.sparse.reorder: sort the entry list into canonical
row-major order (insertion sort). -/
def sparseReorder : List SpEntry → List SpEntry
  | [] => []
  | e :: t => insertEntry e (sparseReorder t)

/-- Model of tf.sparse.SparseTensor: a dense shape plus the entry list. -/
structure SparseTensor where
  shape : List ℕ
  entries : List SpEntry
  deriving DecidableEq

/-- Model of numpy astype(np.int64) on a float value: truncation toward
zero. -/
def truncZ (q : ℚ) : ℤ := if 0 ≤ q then ⌊q⌋ else ⌈q⌉

/-- The entry list built on lines 37-40 of the source: row indices
`np.arange(input_dim)` paired with the bucket column `rand_h[i]` and the
value `rand_s[i]`. -/
def entsOf (h : List ℤ) (s : List ℚ) : List SpEntry :=
  (List.range h.length).map (fun (i : ℕ) => ((i : ℤ), h.getD i 0, s.getD i 0))

/-- Lines 18-41 of src/compact_bilinear_pooling.py, `_generate_sketch_matrix`.
The input arrays are 1-D by construction (Lean lists), so the ndim part of
the first assert always holds.  `rand_h.astype(np.int64)` truncates toward
zero before the range checks run; `rand_s.astype(np.float32)` is modeled as
the identity on exact values.  A failed Python assert is
`TfErr.assertionError`. -/
def _generate_sketch_matrix (rand_h rand_s : List ℚ) (output_dim : ℕ) :
    Except TfErr SparseTensor :=
  let h : List ℤ := rand_h.map truncZ
  let s : List ℚ := rand_s
  if h.length = s.length then
    if h.all (fun v => decide (0 ≤ v)) && h.all (fun v => decide (v < (output_dim : ℤ))) then
      let input_dim := h.length
      .ok ⟨[input_dim, output_dim], sparseReorder (entsOf h s)⟩
    else .error .assertionError
  else .error .assertionError

/-- A TensorFlow tensor: shape plus row-major flat data. -/
structure Tf (α : Type) where
  shape : List ℕ
  data : ℕ → α

/-- Number of elements of a tensor. -/
def Tf.size (t : Tf α) : ℕ := t.shape.prod

/-- The innermost (last) dimension, `get_shape().as_list()[-1]`. -/
def lastDim (sh : List ℕ) : ℕ := sh.getLastD 0

/-- Model of `tf.reshape(t, [-1, d])`: the flat data is reinterpreted with
the first dimension inferred; TensorFlow raises InvalidArgument when the
element count is not divisible. -/
def tfReshapeFlat (d : ℕ) (t : Tf ℚ) : Except TfErr (Tf ℚ) :=
  if 0 < d ∧ t.size % d = 0 then .ok ⟨[t.size / d, d], t.data⟩
  else .error .invalidReshape

/-- Model of `tf.zeros_like`. -/
def tfZerosLike (t : Tf ℚ) : Tf ℚ := ⟨t.shape, fun _ => 0⟩

/-- Model of `tf.complex(real=re, imag=im)`. -/
def tfComplex (re im : Tf ℚ) : Tf Cx := ⟨re.shape, fun p => (re.data p, im.data p)⟩

/-- Dense coefficient of a sparse tensor at (i, b): the sum of the values
of all entries with that index pair. -/
def spDense (S : SparseTensor) (i b : ℤ) : ℚ :=
  ((S.entries.filter (fun e => decide (e.1 = i) && decide (e.2.1 = b))).map
    (fun e => e.2.2)).sum

/-- Model of `tf.sparse.sparse_dense_matmul(S, X, adjoint_a=True,
adjoint_b=True)` for S of dense shape [C, D] and X of shape [N, C]:
the [D, N] product of the transposed operands; entry (b, n) is
sum over i of S[i, b] * X[n, i].  TensorFlow raises when the inner
dimensions disagree. -/
def spMatmulAdjoint (S : SparseTensor) (X : Tf ℚ) : Except TfErr (Tf ℚ) :=
  let C := S.shape.getD 0 0
  let D := S.shape.getD 1 0
  let N := X.shape.getD 0 0
  if X.shape.getD 1 0 = C then
    .ok ⟨[D, N], fun p =>
      ∑ i ∈ Finset.range C, spDense S (i : ℤ) ((p / N : ℕ) : ℤ) * X.data ((p % N) * C + i)⟩
  else .error .dimMismatch

/-- Model of `tf.transpose` on a 2-D tensor of shape [r, c]. -/
def tfTranspose2 (t : Tf α) : Tf α :=
  let r := t.shape.getD 0 0
  let c := t.shape.getD 1 0
  ⟨[c, r], fun p => t.data ((p % r) * c + p / r)⟩

/-- Model of `tf.signal.fft`: DFT over the innermost axis, kernel
`omega = exp(-2*pi*i/d)` passed as a parameter. -/
def fftB (omega : Cx) (t : Tf Cx) : Tf Cx :=
  let d := lastDim t.shape
  ⟨t.shape, fun p =>
    ∑ j ∈ Finset.range d, cmul (t.data ((p / d) * d + j)) (cpow omega (j * (p % d)))⟩

/-- Model of `tf.signal.ifft`: inverse DFT over the innermost axis, with
the conjugate kernel and 1/d scaling. -/
def ifftB (omega : Cx) (t : Tf Cx) : Tf Cx :=
  let d := lastDim t.shape
  ⟨t.shape, fun p =>
    ((d : ℚ))⁻¹ •
      ∑ j ∈ Finset.range d, cmul (t.data ((p / d) * d + j)) (cpow (conjC omega) (j * (p % d)))⟩

/-- Lines 6-10 of the source: when `sequential` is true the Python function
falls through a bare `return`, producing None. -/
def _fft (omega : Cx) (bottom : Tf Cx) (sequential : Bool) : Option (Tf Cx) :=
  if sequential then none else some (fftB omega bottom)

/-- Lines 12-16 of the source: when `sequential` is true the Python function
falls through a bare `return`, producing None. -/
def _ifft (omega : Cx) (bottom : Tf Cx) (sequential : Bool) : Option (Tf Cx) :=
  if sequential then none else some (ifftB omega bottom)

/-- Model of `tf.multiply` on complex tensors.  Only the equal-shape case
is modeled (general broadcasting is not); every configuration referenced
in this development has either equal shapes, where TensorFlow and this
model agree, or shapes [N1, d] vs [N2, d] with distinct N1, N2 both
exceeding one, which TensorFlow also rejects. -/
def tfMultiply (t u : Tf Cx) : Except TfErr (Tf Cx) :=
  if t.shape = u.shape then .ok ⟨t.shape, fun p => cmul (t.data p) (u.data p)⟩
  else .error .shapeMismatch

/-- Model of `tf.math.real`. -/
def tfRealPart (t : Tf Cx) : Tf ℚ := ⟨t.shape, fun p => (t.data p).1⟩

/-- Model of `tf.reshape(t, (-1, d1, d2, d3))` on line 129. -/
def tfReshapeBack (dims : List ℕ) (t : Tf ℚ) : Except TfErr (Tf ℚ) :=
  let m := dims.prod
  if 0 < m ∧ t.size % m = 0 then .ok ⟨t.size / m :: dims, t.data⟩
  else .error .invalidReshape

/-- Lines 106-131 of `compact_bilinear_pooling_layer`: flatten both inputs,
print the debug line, project through the sketch matrices, transform,
multiply, inverse transform, take the real part and reshape using
dimensions 1..3 of bottom1.  The returned list of strings is the stdout
trace of the `print` on line 108. -/
def pipelineTail (omega : Cx) (m1 m2 : SparseTensor) (bottom1 bottom2 : Tf ℚ)
    (sequential : Bool) : Except TfErr (Tf ℚ) × List String :=
  let input_dim1 := lastDim bottom1.shape
  let input_dim2 := lastDim bottom2.shape
  match tfReshapeFlat input_dim1 bottom1 with
  | .error e => (.error e, [])
  | .ok bottom1_flat =>
    match tfReshapeFlat input_dim2 bottom2 with
    | .error e => (.error e, [])
    | .ok bottom2_flat =>
      match spMatmulAdjoint m1 bottom1_flat with
      | .error e => (.error e, ["bottom1:"])
      | .ok pre1 =>
        let sketch1 := tfTranspose2 pre1
        match spMatmulAdjoint m2 bottom2_flat with
        | .error e => (.error e, ["bottom1:"])
        | .ok pre2 =>
          let sketch2 := tfTranspose2 pre2
          let fft1 := _fft omega (tfComplex sketch1 (tfZerosLike sketch1)) sequential
          let fft2 := _fft omega (tfComplex sketch2 (tfZerosLike sketch2)) sequential
          match fft1, fft2 with
          | some f1, some f2 =>
            (match tfMultiply f1 f2 with
             | .error e => (.error e, ["bottom1:"])
             | .ok fft_product =>
               match _ifft omega fft_product sequential with
               | some iv =>
                 let cbp_flat := tfRealPart iv
                 (tfReshapeBack
                   [bottom1.shape.getD 1 0, bottom1.shape.getD 2 0, bottom1.shape.getD 3 0]
                   cbp_flat, ["bottom1:"])
               | none => (.error .noneOperand, ["bottom1:"]))
          | _, _ => (.error .noneOperand, ["bottom1:"])

/-- Abstract deterministic model of the np.random global generator:
`seed n` resets the state to a value depending only on n, and
`randint bound size st` draws `size` integers in [0, bound) from state
`st`, returning the drawn list and the successor state. -/
structure NpRng (σ : Type) where
  seed : ℕ → σ
  randint : ℕ → ℕ → σ → List ℤ × σ

/-- Value component of one of the four `if rand is None` blocks on lines
88-102: either the explicitly supplied array, or the array drawn right
after reseeding with the given seed, mapped through `f`. -/
def resolveVal {σ : Type} (G : NpRng σ) (given : Option (List ℚ))
    (seedv bound size : ℕ) (f : ℤ → ℚ) : List ℚ :=
  match given with
  | some a => a
  | none => ((G.randint bound size (G.seed seedv)).1).map f

/-- State component of the same block: the global generator state is
untouched when the array is supplied, and is the post-draw state of the
freshly reseeded generator otherwise. -/
def resolveState {σ : Type} (G : NpRng σ) (given : Option (List ℚ))
    (seedv bound size : ℕ) (rng : σ) : σ :=
  match given with
  | some _ => rng
  | none => (G.randint bound size (G.seed seedv)).2

/-- Embedding of `rand_h = np.random.randint(output_dim, size=input_dim)`
values into the rationals. -/
def intToQ (z : ℤ) : ℚ := (z : ℚ)

/-- The sign transformation `2 * np.random.randint(2, size=input_dim) - 1`. -/
def signOfBit (z : ℤ) : ℚ := 2 * (z : ℚ) - 1

/-- Lines 43-131 of src/compact_bilinear_pooling.py,
`compact_bilinear_pooling_layer`.  The np.random global state is threaded
explicitly (last argument and second component of the result); the third
component is the stdout trace.  Value flow and state flow of the four
`if rand is None` blocks are the `resolveVal` and `resolveState`
components of the same source lines.  A Python exception aborts the call,
leaving the generator state as it was at the raise point. -/
def compact_bilinear_pooling_layer {σ : Type} (G : NpRng σ) (omega : Cx)
    (bottom1 bottom2 : Tf ℚ) (output_dim : ℕ)
    (rand_h_1 rand_s_1 rand_h_2 rand_s_2 : Option (List ℚ))
    (seed_h_1 seed_s_1 seed_h_2 seed_s_2 : ℕ)
    (sequential : Bool) (rng : σ) :
    Except TfErr (Tf ℚ) × σ × List String :=
  let input_dim1 := lastDim bottom1.shape
  let input_dim2 := lastDim bottom2.shape
  let h1 := resolveVal G rand_h_1 seed_h_1 output_dim input_dim1 intToQ
  let s1 := resolveVal G rand_s_1 seed_s_1 2 input_dim1 signOfBit
  let rngB := resolveState G rand_s_1 seed_s_1 2 input_dim1
    (resolveState G rand_h_1 seed_h_1 output_dim input_dim1 rng)
  match _generate_sketch_matrix h1 s1 output_dim with
  | .error e => (.error e, rngB, [])
  | .ok m1 =>
    let h2 := resolveVal G rand_h_2 seed_h_2 output_dim input_dim2 intToQ
    let s2 := resolveVal G rand_s_2 seed_s_2 2 input_dim2 signOfBit
    let rngD := resolveState G rand_s_2 seed_s_2 2 input_dim2
      (resolveState G rand_h_2 seed_h_2 output_dim input_dim2 rngB)
    match _generate_sketch_matrix h2 s2 output_dim with
    | .error e => (.error e, rngD, [])
    | .ok m2 =>
      let pt := pipelineTail omega m1 m2 bottom1 bottom2 sequential
      (pt.1, rngD, pt.2)

/-- Shape observer of a fallible tensor result ([] on error). -/
def shapeOf (r : Except TfErr (Tf α)) : List ℕ :=
  match r with
  | .ok t => t.shape
  | .error _ => []

/-- Data observer of a fallible tensor result (0 on error). -/
def dataOf (r : Except TfErr (Tf ℚ)) (p : ℕ) : ℚ :=
  match r with
  | .ok t => t.data p
  | .error _ => 0

/-- Error observer of a fallible result. -/
def errOf {β : Type} (r : Except TfErr β) : Option TfErr :=
  match r with
  | .ok _ => none
  | .error e => some e

/-- Success observer of a fallible result. -/
def okOf {β : Type} (r : Except TfErr β) : Bool :=
  match r with
  | .ok _ => true
  | .error _ => false

/-- Payload observer of a fallible sparse-matrix result. -/
def sketchOf (r : Except TfErr SparseTensor) : Option SparseTensor :=
  match r with
  | .ok m => some m
  | .error _ => none

/-- Pointwise linear combination of two tensors (the shape is taken from
the first operand). -/
def lcombT (a : ℚ) (x : Tf ℚ) (b : ℚ) (y : Tf ℚ) : Tf ℚ :=
  ⟨x.shape, fun p => a * x.data p + b * y.data p⟩

/-- A concrete instance of the abstract np.random model, used for closed
evaluations: the state is a natural number, `seed n` sets it to n, and
`randint` always draws zeros without advancing the state. -/
def npRngEx : NpRng ℕ := ⟨fun n => n, fun _ k s => (List.replicate k 0, s)⟩

/-- A concrete DFT kernel parameter for closed evaluations: the primitive
fourth root of unity -i, which is the exact kernel exp(-2*pi*i/4). -/
def omegaEx : Cx := (0, -1)

/-- All-ones tensor of a given shape, for closed evaluations. -/
def onesT (sh : List ℕ) : Tf ℚ := ⟨sh, fun _ => 1⟩

/-- Concrete first stream for the linearity witness. -/
def xEx : Tf ℚ := ⟨[1, 1, 1, 2], fun p => [3, 5].getD p 0⟩

/-- Concrete second tensor for the linearity witness. -/
def yEx : Tf ℚ := ⟨[1, 1, 1, 2], fun p => [2, 7].getD p 0⟩

/-! ### Helper lemmas -/

theorem truncZ_intCast (z : ℤ) : truncZ (z : ℚ) = z := by
  unfold truncZ
  split
  · exact Int.floor_intCast z
  · exact Int.ceil_intCast z

theorem map_truncZ_map_intToQ (h : List ℤ) : (h.map intToQ).map truncZ = h := by
  rw [List.map_map]
  simp [Function.comp_def, intToQ, truncZ_intCast]

theorem insertEntry_of_le (e f : SpEntry) (t : List SpEntry) (hef : entryLeB e f = true) :
    insertEntry e (f :: t) = e :: f :: t := by
  simp [insertEntry, hef]

theorem sparseReorder_eq_self (l : List SpEntry)
    (hl : l.Pairwise (fun e f => entryLeB e f = true)) : sparseReorder l = l := by
  induction l with
  | nil => rfl
  | cons e t ih =>
    rw [sparseReorder, ih hl.of_cons]
    cases t with
    | nil => rfl
    | cons f t2 =>
      exact insertEntry_of_le _ _ _ ((List.pairwise_cons.mp hl).1 f (by simp))

theorem entsOf_pairwise (h : List ℤ) (s : List ℚ) :
    (entsOf h s).Pairwise (fun e f => entryLeB e f = true) := by
  unfold entsOf
  rw [List.pairwise_map]
  refine (List.pairwise_lt_range h.length).imp ?_
  intro a b hab
  simp only [entryLeB, Bool.or_eq_true, decide_eq_true_eq]
  exact Or.inl (by exact_mod_cast hab)

theorem generate_eq_of_valid (h : List ℤ) (s : List ℚ) (D : ℕ)
    (hlen : h.length = s.length)
    (hrange : ∀ v ∈ h, 0 ≤ v ∧ v < (D : ℤ)) :
    _generate_sketch_matrix (h.map intToQ) s D = .ok ⟨[h.length, D], entsOf h s⟩ := by
  have hall1 : h.all (fun v => decide (0 ≤ v)) = true :=
    List.all_eq_true.mpr (fun v hv => decide_eq_true (hrange v hv).1)
  have hall2 : h.all (fun v => decide (v < (D : ℤ))) = true :=
    List.all_eq_true.mpr (fun v hv => decide_eq_true (hrange v hv).2)
  simp only [_generate_sketch_matrix, map_truncZ_map_intToQ, hall1, hall2, Bool.and_self,
    if_true, hlen, if_pos]
  rw [sparseReorder_eq_self _ (entsOf_pairwise h s)]

theorem sum_map_filter {α : Type} (l : List α) (p : α → Bool) (g : α → ℚ) :
    ((l.filter p).map g).sum = (l.map (fun e => if p e = true then g e else 0)).sum := by
  induction l with
  | nil => rfl
  | cons a t ih =>
    by_cases hp : p a = true
    · simp [List.filter_cons, hp, ih]
    · simp [List.filter_cons, hp, ih]

theorem list_range_map_sum (n : ℕ) (f : ℕ → ℚ) :
    ((List.range n).map f).sum = ∑ i ∈ Finset.range n, f i := rfl

theorem spDense_entsOf (sh : List ℕ) (h : List ℤ) (s : List ℚ) (i : ℕ) (b : ℤ)
    (hi : i < h.length) :
    spDense ⟨sh, entsOf h s⟩ (i : ℤ) b = if h.getD i 0 = b then s.getD i 0 else 0 := by
  unfold spDense entsOf
  rw [sum_map_filter, List.map_map, list_range_map_sum]
  rw [Finset.sum_eq_single i]
  · simp
  · intro j hj hji
    have : ¬((j : ℤ) = (i : ℤ)) := by exact_mod_cast hji
    simp [Function.comp_def, this]
  · intro hmem
    exact absurd (Finset.mem_range.mpr hi) hmem

theorem nat_mul_add_mod (n d b : ℕ) (hb : b < d) : (n * d + b) % d = b := by
  rw [Nat.mul_comm, Nat.mul_add_mod, Nat.mod_eq_of_lt hb]

theorem nat_mul_add_div (n d b : ℕ) (hb : b < d) : (n * d + b) / d = n := by
  rw [Nat.mul_comm, Nat.mul_add_div (Nat.zero_lt_of_lt hb), Nat.div_eq_of_lt hb, Nat.add_zero]

theorem range_filter_decide_eq (n i : ℕ) (hi : i < n) :
    (List.range n).filter (fun j => decide (j = i)) = [i] := by
  induction n with
  | zero => exact absurd hi (Nat.not_lt_zero i)
  | succ m ih =>
    rw [List.range_succ, List.filter_append]
    rcases Nat.lt_or_ge i m with hlt | hge
    · rw [ih hlt]
      have hm : (List.filter (fun j => decide (j = i)) [m]) = [] := by
        simp [Nat.ne_of_gt hlt]
      rw [hm, List.append_nil]
    · have him : i = m := Nat.le_antisymm (Nat.lt_succ_iff.mp hi) hge
      subst him
      have h1 : (List.range i).filter (fun j => decide (j = i)) = [] := by
        rw [List.filter_eq_nil_iff]
        intro a ha
        simp [Nat.ne_of_lt (List.mem_range.mp ha)]
      rw [h1, List.nil_append]
      simp

/-- C3: for every flattened input matrix of shape [N, input_dim] and every
valid sketch (bucket indices in range, signs of matching length), the
projection step of lines 111-112 (the adjoint sparse matmul followed by
the transpose) succeeds and produces a dense [N, output_dim] tensor whose
entry (n, b) is the sum over all channels i with bucket h[i] = b of
s[i] * x[n, i]: a linear scatter-add of each input channel into exactly
one output bucket per spatial-batch position. -/
theorem c3_projection_scatter_add (h : List ℤ) (s : List ℚ) (D N n b : ℕ)
    (M : SparseTensor) (X : Tf ℚ)
    (hlen : h.length = s.length)
    (hrange : ∀ v ∈ h, 0 ≤ v ∧ v < (D : ℤ))
    (hM : _generate_sketch_matrix (h.map intToQ) s D = .ok M)
    (hX : X.shape = [N, h.length])
    (hn : n < N) (hb : b < D) :
    ∃ P, spMatmulAdjoint M X = .ok P ∧
      (tfTranspose2 P).shape = [N, D] ∧
      (tfTranspose2 P).data (n * D + b)
        = ∑ i ∈ Finset.range h.length,
            (if h.getD i 0 = (b : ℤ) then s.getD i 0 * X.data (n * h.length + i) else 0) := by
  have h2 := hM.symm.trans (generate_eq_of_valid h s D hlen hrange)
  injection h2 with hMeq
  subst hMeq
  simp only [spMatmulAdjoint, hX, List.getD_cons_succ, List.getD_cons_zero]
  rw [if_pos trivial]
  refine ⟨_, rfl, rfl, ?_⟩
  simp only [tfTranspose2, List.getD_cons_succ, List.getD_cons_zero]
  have hmod : (n * D + b) % D = b := nat_mul_add_mod n D b hb
  have hdiv : (n * D + b) / D = n := nat_mul_add_div n D b hb
  simp only [hmod, hdiv]
  have hmod2 : (b * N + n) % N = n := nat_mul_add_mod b N n hn
  have hdiv2 : (b * N + n) / N = b := nat_mul_add_div b N n hn
  simp only [hmod2, hdiv2]
  refine Finset.sum_congr rfl ?_
  intro i hi
  rw [spDense_entsOf _ _ _ _ _ (Finset.mem_range.mp hi)]
  rw [ite_mul, zero_mul]

/-- Witness for C3 at a concrete input: two channels with buckets [1, 0],
signs [1, -1], output_dim 2, one spatial-batch row x = [3, 5]. -/
theorem c3_witness :
    ([(1 : ℤ), 0].length = [(1 : ℚ), -1].length) ∧
    (∀ v ∈ [(1 : ℤ), 0], 0 ≤ v ∧ v < ((2 : ℕ) : ℤ)) ∧
    (∃ P, spMatmulAdjoint (SparseTensor.mk [2, 2] [(0, 1, 1), (1, 0, -1)])
        (Tf.mk [1, 2] (fun p => ([3, 5] : List ℚ).getD p 0)) = .ok P ∧
      (tfTranspose2 P).shape = [1, 2] ∧
      (tfTranspose2 P).data (0 * 2 + 1)
        = ∑ i ∈ Finset.range ([(1 : ℤ), 0].length),
            (if [(1 : ℤ), 0].getD i 0 = ((1 : ℕ) : ℤ) then
              [(1 : ℚ), -1].getD i 0 *
                (Tf.mk [1, 2] (fun p => ([3, 5] : List ℚ).getD p 0)).data (0 * 2 + i)
            else 0)) :=
  ⟨by decide, by decide,
    c3_projection_scatter_add [1, 0] [1, -1] 2 1 0 1
      (SparseTensor.mk [2, 2] [(0, 1, 1), (1, 0, -1)])
      (Tf.mk [1, 2] (fun p => ([3, 5] : List ℚ).getD p 0))
      (by decide) (by decide) rfl rfl (by decide) (by decide)⟩

/-- C8: every sparse matrix produced by `_generate_sketch_matrix` from
valid inputs has dense shape [input_dim, output_dim]; for each row index
i below input_dim its entry list contains exactly one entry with that row,
namely (i, bucket[i], sign[i]); all stored values lie in {+1, -1}; and the
entry list is in canonical row-major order. -/
theorem c8_sparse_matrix_invariants (h : List ℤ) (s : List ℚ) (D : ℕ) (M : SparseTensor)
    (hlen : h.length = s.length)
    (hrange : ∀ v ∈ h, 0 ≤ v ∧ v < (D : ℤ))
    (hsign : ∀ v ∈ s, v = 1 ∨ v = -1)
    (hM : _generate_sketch_matrix (h.map intToQ) s D = .ok M) :
    M.shape = [h.length, D] ∧
    (∀ i, i < h.length →
      M.entries.filter (fun e => decide (e.1 = (i : ℤ))) = [((i : ℤ), h.getD i 0, s.getD i 0)]) ∧
    (∀ e ∈ M.entries, e.2.2 = 1 ∨ e.2.2 = -1) ∧
    M.entries.Pairwise (fun e f => entryLeB e f = true) := by
  have h2 := hM.symm.trans (generate_eq_of_valid h s D hlen hrange)
  injection h2 with hMeq
  subst hMeq
  refine ⟨rfl, ?_, ?_, entsOf_pairwise h s⟩
  · intro i hi
    unfold entsOf
    rw [List.filter_map]
    have hpred : ∀ j : ℕ,
        ((fun e : SpEntry => decide (e.1 = (i : ℤ))) ∘
          (fun (j : ℕ) => ((j : ℤ), h.getD j 0, s.getD j 0))) j = decide (j = i) := by
      intro j
      simp only [Function.comp_def]
      exact decide_eq_decide.mpr Int.natCast_inj
    rw [List.filter_congr (fun j _ => hpred j)]
    rw [range_filter_decide_eq h.length i hi]
    rfl
  · intro e he
    unfold entsOf at he
    rcases List.mem_map.mp he with ⟨j, hj, hje⟩
    have hjlen : j < s.length := hlen ▸ List.mem_range.mp hj
    have : e.2.2 = s.getD j 0 := by rw [← hje]
    rw [this, List.getD_eq_getElem s 0 hjlen]
    exact hsign _ (List.getElem_mem hjlen)

/-- Witness for C8 at the concrete sketch with buckets [1, 0], signs
[1, -1], output_dim 2. -/
theorem c8_witness :
    ([(1 : ℤ), 0].length = [(1 : ℚ), -1].length) ∧
    (∀ v ∈ [(1 : ℤ), 0], 0 ≤ v ∧ v < ((2 : ℕ) : ℤ)) ∧
    (∀ v ∈ [(1 : ℚ), -1], v = 1 ∨ v = -1) ∧
    ((SparseTensor.mk [2, 2] [(0, 1, 1), (1, 0, -1)]).shape = [[(1 : ℤ), 0].length, 2] ∧
      (∀ i, i < [(1 : ℤ), 0].length →
        (SparseTensor.mk [2, 2] [(0, 1, 1), (1, 0, -1)]).entries.filter
            (fun e => decide (e.1 = (i : ℤ)))
          = [((i : ℤ), [(1 : ℤ), 0].getD i 0, [(1 : ℚ), -1].getD i 0)]) ∧
      (∀ e ∈ (SparseTensor.mk [2, 2] [(0, 1, 1), (1, 0, -1)]).entries,
        e.2.2 = 1 ∨ e.2.2 = -1) ∧
      (SparseTensor.mk [2, 2] [(0, 1, 1), (1, 0, -1)]).entries.Pairwise
        (fun e f => entryLeB e f = true)) :=
  ⟨by decide, by decide, by decide,
    c8_sparse_matrix_invariants [1, 0] [1, -1] 2
      (SparseTensor.mk [2, 2] [(0, 1, 1), (1, 0, -1)])
      (by decide) (by decide) (by decide) rfl⟩

/-- C1 fails on the code: at bottom1 of shape [1,1,1,2], bottom2 of shape
[1,1,1,1] and output_dim 4 (with valid explicit sketches) the layer
returns a tensor of shape [2, 1, 1, 2], because line 129 reshapes with
`bottom1.get_shape()[3]` (the first input channel count) instead of
output_dim; the claimed shape is [1, 1, 1, 4]. -/
theorem c1_output_shape_bug :
    shapeOf (compact_bilinear_pooling_layer npRngEx omegaEx (onesT [1, 1, 1, 2])
      (onesT [1, 1, 1, 1]) 4 (some [0, 1]) (some [1, 1]) (some [0]) (some [1])
      1 3 5 7 false 0).1 = [2, 1, 1, 2] ∧
    ([2, 1, 1, 2] : List ℕ) ≠ [1, 1, 1, 4] := by decide

/-- C2 fails on the code: with sequential=True the call fails (because
`_fft` and `_ifft` fall through a bare `return`, so `tf.multiply` receives
None), while the identical call with sequential=False succeeds; the two
paths are not observably equivalent. -/
theorem c2_sequential_path_broken :
    errOf (compact_bilinear_pooling_layer npRngEx omegaEx (onesT [1, 1, 1, 2])
      (onesT [1, 1, 1, 1]) 4 (some [0, 1]) (some [1, 1]) (some [0]) (some [1])
      1 3 5 7 true 0).1 = some .noneOperand ∧
    okOf (compact_bilinear_pooling_layer npRngEx omegaEx (onesT [1, 1, 1, 2])
      (onesT [1, 1, 1, 1]) 4 (some [0, 1]) (some [1, 1]) (some [0]) (some [1])
      1 3 5 7 false 0).1 = true := by decide

/-- C4: the result of `compact_bilinear_pooling_layer` does not depend on
the np.random global state at call time, for every generator model, every
configuration (seeds or explicit sketch arrays) and every pair of inputs:
each seed-derived array is drawn right after reseeding, so two invocations
from different prior states return identical results. -/
theorem c4_deterministic {σ : Type} (G : NpRng σ) (omega : Cx) (b1 b2 : Tf ℚ) (D : ℕ)
    (r1 r2 r3 r4 : Option (List ℚ)) (sa sb sc sd : ℕ) (seq : Bool) (rngX rngY : σ) :
    (compact_bilinear_pooling_layer G omega b1 b2 D r1 r2 r3 r4 sa sb sc sd seq rngX).1
      = (compact_bilinear_pooling_layer G omega b1 b2 D r1 r2 r3 r4 sa sb sc sd seq rngY).1 := by
  simp only [compact_bilinear_pooling_layer]
  rcases hg1 : _generate_sketch_matrix
      (resolveVal G r1 sa D (lastDim b1.shape) intToQ)
      (resolveVal G r2 sb 2 (lastDim b1.shape) signOfBit) D with e | m1
  · rfl
  · rcases hg2 : _generate_sketch_matrix
        (resolveVal G r3 sc D (lastDim b2.shape) intToQ)
        (resolveVal G r4 sd 2 (lastDim b2.shape) signOfBit) D with e2 | m2
    · rfl
    · rfl

/-- C5 fails on the code: when the sketch arrays are seed-derived the call
mutates the shared pseudo-random generator state; here the state moves
from 0 to the post-draw state of seed 7. -/
theorem c5_rng_state_mutated :
    (compact_bilinear_pooling_layer npRngEx omegaEx (onesT [1, 1, 1, 2])
      (onesT [1, 1, 1, 1]) 4 none none none none 1 3 5 7 false 0).2.1 ≠ 0 := by decide

/-- C5 amended: the layer does not mutate its inputs, and when all four
sketch arrays are supplied explicitly the pseudo-random generator state is
left unchanged; only the seed-derived path reseeds and advances it (and
the call always emits the debug print once the inputs are flattened). -/
theorem c5_no_rng_effect_with_explicit_sketches {σ : Type} (G : NpRng σ) (omega : Cx)
    (b1 b2 : Tf ℚ) (D : ℕ) (a1 a2 a3 a4 : List ℚ) (sa sb sc sd : ℕ) (seq : Bool) (rng : σ) :
    (compact_bilinear_pooling_layer G omega b1 b2 D (some a1) (some a2) (some a3) (some a4)
      sa sb sc sd seq rng).2.1 = rng := by
  simp only [compact_bilinear_pooling_layer, resolveVal, resolveState]
  rcases hg1 : _generate_sketch_matrix a1 a2 D with e | m1
  · rfl
  · rcases hg2 : _generate_sketch_matrix a3 a4 D with e2 | m2
    · rfl
    · rfl

/-- C7 fails on the code: a signs array containing 5/2 (not +1 or -1) is
accepted and a matrix is constructed; no sign check exists. -/
theorem c7_sign_not_validated :
    okOf (_generate_sketch_matrix [(0 : ℚ)] [(5 : ℚ)/2] 1) = true ∧
    ¬ ((5 : ℚ)/2 = 1 ∨ (5 : ℚ)/2 = -1) := by
  refine ⟨by decide, ?_⟩
  norm_num

/-- C7 amended: `_generate_sketch_matrix` succeeds exactly when the two
arrays have equal length and every truncated bucket index lies in
[0, output_dim); being 1-dimensional is automatic, and the sign values
are not inspected at all. -/
theorem c7_amended_validation_iff (rand_h rand_s : List ℚ) (D : ℕ) :
    okOf (_generate_sketch_matrix rand_h rand_s D) = true ↔
      (rand_h.length = rand_s.length ∧
        ∀ q ∈ rand_h, 0 ≤ truncZ q ∧ truncZ q < (D : ℤ)) := by
  simp only [_generate_sketch_matrix]
  by_cases hlen : (rand_h.map truncZ).length = rand_s.length
  · rw [if_pos hlen]
    by_cases hall : ((rand_h.map truncZ).all (fun v => decide (0 ≤ v)) &&
        (rand_h.map truncZ).all (fun v => decide (v < (D : ℤ)))) = true
    · rw [if_pos hall]
      rw [Bool.and_eq_true] at hall
      refine iff_of_true rfl ⟨by rw [List.length_map] at hlen; exact hlen, ?_⟩
      intro q hq
      have m1 := List.all_eq_true.mp hall.1 (truncZ q) (List.mem_map_of_mem _ hq)
      have m2 := List.all_eq_true.mp hall.2 (truncZ q) (List.mem_map_of_mem _ hq)
      exact ⟨of_decide_eq_true m1, of_decide_eq_true m2⟩
    · rw [if_neg hall]
      refine iff_of_false (by simp [okOf]) ?_
      rintro ⟨hl, hr⟩
      apply hall
      rw [Bool.and_eq_true]
      constructor
      · refine List.all_eq_true.mpr ?_
        intro v hv
        rcases List.mem_map.mp hv with ⟨q, hq, rfl⟩
        exact decide_eq_true (hr q hq).1
      · refine List.all_eq_true.mpr ?_
        intro v hv
        rcases List.mem_map.mp hv with ⟨q, hq, rfl⟩
        exact decide_eq_true (hr q hq).2
  · rw [if_neg hlen]
    refine iff_of_false (by simp [okOf]) ?_
    rintro ⟨hl, _⟩
    exact hlen (by rw [List.length_map]; exact hl)

/-- C10: a non-integer bucket array is not rejected; the value 1.9 is
silently truncated toward zero to 1 by the int64 cast before the range
checks run, and the truncated value becomes the nonzero column; likewise a
non-unit sign such as 5/2 passes the (nonexistent) sign validation. -/
theorem c10_silent_truncation :
    sketchOf (_generate_sketch_matrix [(19 : ℚ)/10] [1] 2) = some ⟨[1, 2], [(0, 1, 1)]⟩ ∧
    truncZ ((19 : ℚ)/10) = 1 ∧
    okOf (_generate_sketch_matrix [(0 : ℚ)] [(5 : ℚ)/2] 1) = true := by
  have ht : truncZ ((19 : ℚ)/10) = 1 := by
    rw [truncZ, if_pos (by norm_num)]
    rw [Int.floor_eq_iff]
    constructor
    · norm_num
    · norm_num
  refine ⟨?_, ht, by decide⟩
  simp only [_generate_sketch_matrix, List.map, ht]
  norm_num [sparseReorder, insertEntry, sketchOf, entsOf]

/-- C6 fails on the code: two streams whose batch, height and width all
differ (shapes [1,2,3,4] and [2,3,1,5], equal flattened sizes) are
accepted and the call returns a tensor; no batch/height/width check exists
and no InvalidArgument is raised. -/
theorem c6_mismatch_not_detected :
    ((onesT [1, 2, 3, 4]).shape.take 3 ≠ (onesT [2, 3, 1, 5]).shape.take 3) ∧
    okOf (compact_bilinear_pooling_layer npRngEx omegaEx (onesT [1, 2, 3, 4])
      (onesT [2, 3, 1, 5]) 4 (some [0, 1, 2, 3]) (some [1, 1, 1, 1])
      (some [0, 1, 2, 3, 0]) (some [1, 1, 1, 1, -1]) 1 3 5 7 false 0).1 = true := by decide

theorem fst_lcomb (a b : ℚ) (u v : Cx) : (a • u + b • v).1 = a * u.1 + b * v.1 := by
  simp [Prod.fst_add, Prod.smul_fst, smul_eq_mul]

theorem snd_lcomb (a b : ℚ) (u v : Cx) : (a • u + b • v).2 = a * u.2 + b * v.2 := by
  simp [Prod.snd_add, Prod.smul_snd, smul_eq_mul]

theorem cmul_lcomb_left (a b : ℚ) (u v w : Cx) :
    cmul (a • u + b • v) w = a • cmul u w + b • cmul v w := by
  refine Prod.ext ?_ ?_
  · simp only [cmul, fst_lcomb, snd_lcomb]
    ring
  · simp only [cmul, fst_lcomb, snd_lcomb]
    ring

theorem mkPair_lcomb (a b q1 q2 : ℚ) :
    ((a * q1 + b * q2 : ℚ), (0 : ℚ)) = a • ((q1, 0) : Cx) + b • ((q2, 0) : Cx) := by
  refine Prod.ext ?_ ?_
  · simp [fst_lcomb]
  · simp [snd_lcomb]

theorem smul_lcomb (q a b : ℚ) (u v : Cx) :
    q • (a • u + b • v) = a • (q • u) + b • (q • v) := by
  rw [smul_add, smul_comm q a, smul_comm q b]

theorem sum_mul_lcomb (n : ℕ) (c u v : ℕ → ℚ) (a b : ℚ) :
    ∑ i ∈ Finset.range n, c i * (a * u i + b * v i)
      = a * ∑ i ∈ Finset.range n, c i * u i + b * ∑ i ∈ Finset.range n, c i * v i := by
  rw [Finset.mul_sum, Finset.mul_sum, ← Finset.sum_add_distrib]
  exact Finset.sum_congr rfl (fun i _ => by ring)

theorem sum_cmul_lcomb (n : ℕ) (K u v : ℕ → Cx) (a b : ℚ) :
    ∑ j ∈ Finset.range n, cmul (a • u j + b • v j) (K j)
      = a • ∑ j ∈ Finset.range n, cmul (u j) (K j)
        + b • ∑ j ∈ Finset.range n, cmul (v j) (K j) := by
  rw [Finset.smul_sum, Finset.smul_sum, ← Finset.sum_add_distrib]
  exact Finset.sum_congr rfl (fun j _ => cmul_lcomb_left a b (u j) (v j) (K j))

/-- C6 amended: no batch/height/width compatibility check exists; when the
two flattened spatial-batch sizes differ (both exceeding one, so that
broadcasting is not in play) the call fails only at the element-wise
frequency-domain multiply, after both sketch matrices have been built and
both projections set up, not before any computation. -/
theorem c6_amended_fails_at_multiply {σ : Type} (G : NpRng σ) (omega : Cx)
    (b1 b2 : Tf ℚ) (D : ℕ) (h1 h2 : List ℤ) (s1 s2 : List ℚ)
    (sa sb sc sd : ℕ) (rng : σ)
    (hlen1 : h1.length = s1.length) (hlen2 : h2.length = s2.length)
    (hrange1 : ∀ v ∈ h1, 0 ≤ v ∧ v < (D : ℤ))
    (hrange2 : ∀ v ∈ h2, 0 ≤ v ∧ v < (D : ℤ))
    (hc1 : lastDim b1.shape = h1.length) (hc2 : lastDim b2.shape = h2.length)
    (hc1pos : 0 < lastDim b1.shape) (hc2pos : 0 < lastDim b2.shape)
    (hdvd1 : b1.size % lastDim b1.shape = 0) (hdvd2 : b2.size % lastDim b2.shape = 0)
    (hN1 : 1 < b1.size / lastDim b1.shape) (hN2 : 1 < b2.size / lastDim b2.shape)
    (hNe : b1.size / lastDim b1.shape ≠ b2.size / lastDim b2.shape) :
    (compact_bilinear_pooling_layer G omega b1 b2 D (some (h1.map intToQ)) (some s1)
      (some (h2.map intToQ)) (some s2) sa sb sc sd false rng).1 = .error .shapeMismatch := by
  rw [hc1] at hc1pos hdvd1
  rw [hc2] at hc2pos hdvd2
  rw [hc1, hc2] at hNe
  have hne2 : ¬ ([b1.size / h1.length, D] = [b2.size / h2.length, D]) := by
    intro hEq
    injection hEq with hEq1 _
    exact hNe hEq1
  simp only [compact_bilinear_pooling_layer, resolveVal,
    generate_eq_of_valid h1 s1 D hlen1 hrange1,
    generate_eq_of_valid h2 s2 D hlen2 hrange2,
    pipelineTail, tfReshapeFlat,
    if_pos (And.intro hc1pos hdvd1), if_pos (And.intro hc2pos hdvd2),
    spMatmulAdjoint, tfTranspose2, List.getD_cons_succ, List.getD_cons_zero, hc1, hc2,
    eq_self_iff_true, if_true, _fft, _ifft, Bool.false_eq_true, if_false, fftB, tfComplex,
    tfZerosLike, tfMultiply, if_neg hne2]

theorem sum_lcomb (n : ℕ) (f g : ℕ → Cx) (a b : ℚ) :
    ∑ j ∈ Finset.range n, (a • f j + b • g j)
      = a • ∑ j ∈ Finset.range n, f j + b • ∑ j ∈ Finset.range n, g j := by
  rw [Finset.sum_add_distrib, Finset.smul_sum, Finset.smul_sum]

theorem pipelineTail_linear (omega : Cx) (m1 m2 : SparseTensor) (a b : ℚ)
    (x y bottom2 : Tf ℚ) (seq : Bool) (hsh : y.shape = x.shape) :
    shapeOf (pipelineTail omega m1 m2 (lcombT a x b y) bottom2 seq).1
      = shapeOf (pipelineTail omega m1 m2 x bottom2 seq).1 ∧
    ∀ p, dataOf (pipelineTail omega m1 m2 (lcombT a x b y) bottom2 seq).1 p
      = a * dataOf (pipelineTail omega m1 m2 x bottom2 seq).1 p
        + b * dataOf (pipelineTail omega m1 m2 y bottom2 seq).1 p := by
  simp only [pipelineTail, lcombT, tfReshapeFlat, Tf.size, hsh, lastDim]
  by_cases hg1 : 0 < x.shape.getLastD 0 ∧ x.shape.prod % x.shape.getLastD 0 = 0
  · simp only [if_pos hg1]
    by_cases hg2 : 0 < bottom2.shape.getLastD 0 ∧ bottom2.shape.prod % bottom2.shape.getLastD 0 = 0
    · simp only [if_pos hg2]
      simp only [spMatmulAdjoint, List.getD_cons_succ, List.getD_cons_zero]
      by_cases hg3 : x.shape.getLastD 0 = m1.shape.getD 0 0
      · simp only [if_pos hg3]
        by_cases hg4 : bottom2.shape.getLastD 0 = m2.shape.getD 0 0
        · simp only [if_pos hg4]
          cases seq with
          | true =>
            simp only [_fft, _ifft, eq_self_iff_true, if_true, shapeOf, dataOf]
            exact ⟨by trivial, fun p => by ring⟩
          | false =>
            simp only [_fft, _ifft, Bool.false_eq_true, if_false, tfTranspose2, tfComplex,
              tfZerosLike, fftB, tfMultiply, List.getD_cons_succ, List.getD_cons_zero]
            by_cases hg6 : ([x.shape.prod / x.shape.getLastD 0, m1.shape.getD 1 0] : List ℕ)
                = [bottom2.shape.prod / bottom2.shape.getLastD 0, m2.shape.getD 1 0]
            · simp only [if_pos hg6, tfRealPart, ifftB, tfReshapeBack, Tf.size,
                List.getD_cons_succ, List.getD_cons_zero]
              by_cases hg7 : 0 < ([x.shape.getD 1 0, x.shape.getD 2 0, x.shape.getD 3 0] : List ℕ).prod ∧
                  ([x.shape.prod / x.shape.getLastD 0, m1.shape.getD 1 0] : List ℕ).prod %
                    ([x.shape.getD 1 0, x.shape.getD 2 0, x.shape.getD 3 0] : List ℕ).prod = 0
              · simp only [if_pos hg7, shapeOf, dataOf]
                refine ⟨by trivial, ?_⟩
                intro p
                simp only [sum_mul_lcomb, mkPair_lcomb, sum_cmul_lcomb, cmul_lcomb_left,
                  sum_lcomb, smul_lcomb, fst_lcomb]
              · simp only [if_neg hg7, shapeOf, dataOf]
                exact ⟨by trivial, fun p => by ring⟩
            · simp only [if_neg hg6, shapeOf, dataOf]
              exact ⟨by trivial, fun p => by ring⟩
        · simp only [if_neg hg4, shapeOf, dataOf]
          exact ⟨by trivial, fun p => by ring⟩
      · simp only [if_neg hg3, shapeOf, dataOf]
        exact ⟨by trivial, fun p => by ring⟩
    · simp only [if_neg hg2, shapeOf, dataOf]
      exact ⟨by trivial, fun p => by ring⟩
  · simp only [if_neg hg1, shapeOf, dataOf]
    exact ⟨by trivial, fun p => by ring⟩

/-- C9: holding stream2 and the sketch configuration fixed, the layer is
linear in stream1: pooling a*x + b*y returns a tensor with the same shape
as pooling x, whose every flat entry is a times the corresponding entry of
pool(x, stream2) plus b times that of pool(y, stream2).  Over the exact
rational model the equality is exact, so it holds in particular up to any
floating-point tolerance. -/
theorem c9_linear_in_stream1 {σ : Type} (G : NpRng σ) (omega : Cx) (a b : ℚ)
    (x y bottom2 : Tf ℚ) (D : ℕ) (r1 r2 r3 r4 : Option (List ℚ))
    (sa sb sc sd : ℕ) (seq : Bool) (rng : σ)
    (hsh : y.shape = x.shape) :
    shapeOf (compact_bilinear_pooling_layer G omega (lcombT a x b y) bottom2 D r1 r2 r3 r4
        sa sb sc sd seq rng).1
      = shapeOf (compact_bilinear_pooling_layer G omega x bottom2 D r1 r2 r3 r4
        sa sb sc sd seq rng).1 ∧
    ∀ p, dataOf (compact_bilinear_pooling_layer G omega (lcombT a x b y) bottom2 D r1 r2 r3 r4
        sa sb sc sd seq rng).1 p
      = a * dataOf (compact_bilinear_pooling_layer G omega x bottom2 D r1 r2 r3 r4
          sa sb sc sd seq rng).1 p
        + b * dataOf (compact_bilinear_pooling_layer G omega y bottom2 D r1 r2 r3 r4
          sa sb sc sd seq rng).1 p := by
  simp only [compact_bilinear_pooling_layer, lcombT, lastDim, hsh]
  rcases hgen1 : _generate_sketch_matrix
      (resolveVal G r1 sa D (x.shape.getLastD 0) intToQ)
      (resolveVal G r2 sb 2 (x.shape.getLastD 0) signOfBit) D with e | m1
  · simp only [shapeOf, dataOf]
    exact ⟨by trivial, fun p => by ring⟩
  · rcases hgen2 : _generate_sketch_matrix
        (resolveVal G r3 sc D (bottom2.shape.getLastD 0) intToQ)
        (resolveVal G r4 sd 2 (bottom2.shape.getLastD 0) signOfBit) D with e2 | m2
    · simp only [shapeOf, dataOf]
      exact ⟨by trivial, fun p => by ring⟩
    · have hlin := pipelineTail_linear omega m1 m2 a b x y bottom2 seq hsh
      simp only [lcombT] at hlin
      exact hlin

/-- Witness for C9 at concrete data: x = [3, 5], y = [2, 7] in a
[1,1,1,2] layout, a = 2, b = 3, explicit sketches, output_dim 2. -/
theorem c9_witness :
    yEx.shape = xEx.shape ∧
    okOf (compact_bilinear_pooling_layer npRngEx omegaEx xEx (onesT [1, 1, 1, 1]) 2
      (some [0, 1]) (some [1, -1]) (some [0]) (some [1]) 1 3 5 7 false 0).1 = true ∧
    (shapeOf (compact_bilinear_pooling_layer npRngEx omegaEx (lcombT 2 xEx 3 yEx)
        (onesT [1, 1, 1, 1]) 2 (some [0, 1]) (some [1, -1]) (some [0]) (some [1])
        1 3 5 7 false 0).1
      = shapeOf (compact_bilinear_pooling_layer npRngEx omegaEx xEx
        (onesT [1, 1, 1, 1]) 2 (some [0, 1]) (some [1, -1]) (some [0]) (some [1])
        1 3 5 7 false 0).1 ∧
    ∀ p, dataOf (compact_bilinear_pooling_layer npRngEx omegaEx (lcombT 2 xEx 3 yEx)
        (onesT [1, 1, 1, 1]) 2 (some [0, 1]) (some [1, -1]) (some [0]) (some [1])
        1 3 5 7 false 0).1 p
      = 2 * dataOf (compact_bilinear_pooling_layer npRngEx omegaEx xEx
          (onesT [1, 1, 1, 1]) 2 (some [0, 1]) (some [1, -1]) (some [0]) (some [1])
          1 3 5 7 false 0).1 p
        + 3 * dataOf (compact_bilinear_pooling_layer npRngEx omegaEx yEx
          (onesT [1, 1, 1, 1]) 2 (some [0, 1]) (some [1, -1]) (some [0]) (some [1])
          1 3 5 7 false 0).1 p) :=
  ⟨rfl, by decide,
    c9_linear_in_stream1 npRngEx omegaEx 2 3 xEx yEx (onesT [1, 1, 1, 1]) 2
      (some [0, 1]) (some [1, -1]) (some [0]) (some [1]) 1 3 5 7 false 0 rfl⟩

/-- Witness for the amended C6: streams of shapes [1,2,3,2] and [2,2,1,3]
(flattened sizes 6 and 4) reach the frequency-domain multiply and fail
there with a shape mismatch, after both sketch matrices were built. -/
theorem c6_witness :
    (1 < (onesT [1, 2, 3, 2]).size / lastDim (onesT [1, 2, 3, 2]).shape) ∧
    (1 < (onesT [2, 2, 1, 3]).size / lastDim (onesT [2, 2, 1, 3]).shape) ∧
    ((onesT [1, 2, 3, 2]).size / lastDim (onesT [1, 2, 3, 2]).shape
      ≠ (onesT [2, 2, 1, 3]).size / lastDim (onesT [2, 2, 1, 3]).shape) ∧
    (compact_bilinear_pooling_layer npRngEx omegaEx (onesT [1, 2, 3, 2]) (onesT [2, 2, 1, 3]) 2
      (some ([(0 : ℤ), 1].map intToQ)) (some [1, -1]) (some ([(0 : ℤ), 1, 1].map intToQ))
      (some [1, 1, -1]) 1 3 5 7 false 0).1 = .error .shapeMismatch :=
  ⟨by decide, by decide, by decide,
    c6_amended_fails_at_multiply npRngEx omegaEx (onesT [1, 2, 3, 2]) (onesT [2, 2, 1, 3]) 2
      [0, 1] [0, 1, 1] [1, -1] [1, 1, -1] 1 3 5 7 0
      (by decide) (by decide) (by decide) (by decide) (by decide) (by decide)
      (by decide) (by decide) (by decide) (by decide) (by decide) (by decide) (by decide)⟩
